import Mathlib

/-!
Verification development for a chunked text-to-speech pipeline.

The development embeds the pipeline of the repository as executable Lean
definitions over lists of characters:

* the text sanitizer (removal of control/format code points),
* the sentence-oriented chunker with its force-split fallback,
* the API error classifier and the speech-generation driver,
* the playback engine of the speak hook as an explicit state machine.

Theorems at the end of the file settle the stated behavioural claims.
-/

/-- Hard upper bound on the size of a text chunk sent to the synthesis API. -/
def MAX_TEXT_LENGTH : Nat := 4500

/-- Characters treated as whitespace by the host language, used by trim and by
the whitespace class of the sentence-splitting regular expression. -/
def jsWs (c : Char) : Bool :=
  decide (c.toNat = 0x9 ∨ c.toNat = 0xA ∨ c.toNat = 0xB ∨ c.toNat = 0xC ∨ c.toNat = 0xD ∨
    c.toNat = 0x20 ∨ c.toNat = 0xA0 ∨ c.toNat = 0x1680 ∨
    (0x2000 ≤ c.toNat ∧ c.toNat ≤ 0x200A) ∨ c.toNat = 0x2028 ∨ c.toNat = 0x2029 ∨
    c.toNat = 0x202F ∨ c.toNat = 0x205F ∨ c.toNat = 0x3000 ∨ c.toNat = 0xFEFF)

/-- Sentence-terminator characters of the chunker: period, exclamation mark,
question mark and the Arabic question mark. -/
def isTerm (c : Char) : Bool :=
  decide (c = '.' ∨ c = '!' ∨ c = '?' ∨ c = '؟')

/-- Removal of leading and trailing whitespace, as the trim method of the host
language strings. -/
def trimL (l : List Char) : List Char :=
  ((l.dropWhile jsWs).reverse.dropWhile jsWs).reverse

/-- Sentence-like units produced by the global regular expression match of the
chunker: at a terminator character no match can start, so the scanner advances
by one; otherwise a unit is a maximal run of non-terminators followed by the
maximal run of terminators and whitespace. -/
def sentences : List Char → List (List Char)
  | [] => []
  | c :: rest =>
    if isTerm c then sentences rest
    else
      (c :: (rest.takeWhile (fun x => !isTerm x)
          ++ (rest.dropWhile (fun x => !isTerm x)).takeWhile (fun x => isTerm x || jsWs x)))
        :: sentences ((rest.dropWhile (fun x => !isTerm x)).dropWhile (fun x => isTerm x || jsWs x))
termination_by l => l.length
decreasing_by
  · simp
  · have h1 := (List.dropWhile_sublist (l := rest.dropWhile (fun x => !isTerm x))
      (fun x => isTerm x || jsWs x)).length_le
    have h2 := (List.dropWhile_sublist (l := rest) (fun x => !isTerm x)).length_le
    simp only [List.length_cons]
    omega

/-- Forced slicing of an oversized sentence into consecutive pieces of the
maximal chunk length, as the inner for-loop of the chunker. -/
def forceSplit (l : List Char) : List (List Char) :=
  if h : l = [] then []
  else l.take MAX_TEXT_LENGTH :: forceSplit (l.drop MAX_TEXT_LENGTH)
termination_by l.length
decreasing_by
  have : 0 < l.length := List.length_pos.mpr h
  simp only [List.length_drop, MAX_TEXT_LENGTH]
  omega

/-- Greedy packing loop of the chunker over the sentence units, carrying the
current buffer; flushes the trimmed buffer when it is non-empty, force-splits
oversized units, and appends a separating space after every packed unit. -/
def chunkLoop : List (List Char) → List Char → List (List Char)
  | [], cur => if trimL cur = [] then [] else [trimL cur]
  | s :: ss, cur =>
    if trimL s = [] then chunkLoop ss cur
    else if MAX_TEXT_LENGTH < (trimL s).length then
      (if trimL cur = [] then [] else [trimL cur]) ++ forceSplit (trimL s) ++ chunkLoop ss []
    else if MAX_TEXT_LENGTH < cur.length + (trimL s).length + 1 then
      (if trimL cur = [] then [] else [trimL cur]) ++ chunkLoop ss (trimL s ++ [' '])
    else chunkLoop ss (cur ++ (trimL s ++ [' ']))

/-- Splits a long text into chunks that are safe to send to the TTS API. -/
def chunkText (l : List Char) : List (List Char) :=
  if trimL l = [] then []
  else if (trimL l).length ≤ MAX_TEXT_LENGTH then [trimL l]
  else chunkLoop (sentences (trimL l)) []

/-- Concatenation of a list of character lists. -/
def joinL : List (List Char) → List Char
  | [] => []
  | x :: xs => x ++ joinL xs

/-- Non-whitespace predicate used to compare chunker output with its input. -/
def nws (c : Char) : Bool := !jsWs c

/-- Unicode Control category: U+0000 to U+001F and U+007F to U+009F. -/
def isCc (c : Char) : Bool :=
  decide (c.toNat ≤ 0x1F ∨ (0x7F ≤ c.toNat ∧ c.toNat ≤ 0x9F))

/-- Unicode Format category, the code points matched by the Cf property class
of the sanitizer regular expression. -/
def isCf (c : Char) : Bool :=
  decide (c.toNat = 0xAD ∨ (0x600 ≤ c.toNat ∧ c.toNat ≤ 0x605) ∨ c.toNat = 0x61C ∨
    c.toNat = 0x6DD ∨ c.toNat = 0x70F ∨ (0x890 ≤ c.toNat ∧ c.toNat ≤ 0x891) ∨
    c.toNat = 0x8E2 ∨ c.toNat = 0x180E ∨ (0x200B ≤ c.toNat ∧ c.toNat ≤ 0x200F) ∨
    (0x202A ≤ c.toNat ∧ c.toNat ≤ 0x202E) ∨ (0x2060 ≤ c.toNat ∧ c.toNat ≤ 0x2064) ∨
    (0x2066 ≤ c.toNat ∧ c.toNat ≤ 0x206F) ∨ c.toNat = 0xFEFF ∨
    (0xFFF9 ≤ c.toNat ∧ c.toNat ≤ 0xFFFB) ∨ c.toNat = 0x110BD ∨ c.toNat = 0x110CD ∨
    (0x13430 ≤ c.toNat ∧ c.toNat ≤ 0x1343F) ∨ (0x1BCA0 ≤ c.toNat ∧ c.toNat ≤ 0x1BCA3) ∨
    (0x1D173 ≤ c.toNat ∧ c.toNat ≤ 0x1D17A) ∨ c.toNat = 0xE0001 ∨
    (0xE0020 ≤ c.toNat ∧ c.toNat ≤ 0xE007F))

/-- The three control characters the sanitizer must preserve: tab, line feed
and carriage return. -/
def keepChar (c : Char) : Bool :=
  decide (c.toNat = 0x9 ∨ c.toNat = 0xA ∨ c.toNat = 0xD)

/-- A character removed by the sanitizer regular expression: the Cf property
class together with the explicitly listed control ranges U+0000 to U+0008,
U+000B, U+000C, U+000E to U+001F and U+007F to U+009F. -/
def removedChar (c : Char) : Bool :=
  isCf c ||
    decide (c.toNat ≤ 0x8 ∨ c.toNat = 0xB ∨ c.toNat = 0xC ∨
      (0xE ≤ c.toNat ∧ c.toNat ≤ 0x1F) ∨ (0x7F ≤ c.toNat ∧ c.toNat ≤ 0x9F))

/-- Removes invisible control and format characters that can cause API errors. -/
def sanitizeText (l : List Char) : List Char :=
  l.filter (fun c => !removedChar c)

/-- ASCII lower-casing of a character, as applied by the error classifier to
the caught error message. -/
def asciiLower (c : Char) : Char :=
  if c.toNat < 0x41 then c
  else if c.toNat ≤ 0x5A then Char.ofNat (c.toNat + 32)
  else c

/-- Lower-cased character list of a string. -/
def lowerL (s : String) : List Char := s.data.map asciiLower

/-- Tests whether the second list occurs at the head of the first. -/
def startsWith : List Char → List Char → Bool
  | _, [] => true
  | [], _ :: _ => false
  | a :: as, b :: bs => (a == b) && startsWith as bs

/-- Tests whether the second list occurs as a contiguous segment of the first,
the includes test of the error classifier. -/
def containsSub : List Char → List Char → Bool
  | [], needle => startsWith [] needle
  | h :: t, needle => startsWith (h :: t) needle || containsSub t needle

/-- Default message for a caught value that is not an Error instance. -/
def msgUnknownComm : String := "یک خطای ناشناخته در هنگام ارتباط با سرویس رخ داد."

/-- Message for an invalid credential or a permission failure. -/
def msgAuth : String := "کلید API نامعتبر است یا مجوز کافی ندارد. لطفاً تنظیمات خود را بررسی کنید."

/-- Message for a rate-limited request. -/
def msgRate : String := "تعداد درخواست‌ها بیش از حد مجاز است. لطفاً کمی صبر کرده و دوباره امتحان کنید."

/-- Message for an unavailable service or an internal server failure. -/
def msgServer : String := "سرویس در حال حاضر در دسترس نیست یا با خطای داخلی مواجه شده است. لطفاً بعداً دوباره تلاش کنید."

/-- Message for a malformed request. -/
def msgBadReq : String := "درخواست نامعتبر بود. لطفاً از صحت متن ورودی خود اطمینان حاصل کنید."

/-- Message for an unrecognized Error instance. -/
def msgUnexpected : String := "یک خطای غیرمنتظره رخ داد. لطفاً دوباره تلاش کنید."

/-- Interprets a raw API error and produces a user-facing message; the caught
value is modelled as an optional message, none standing for a caught value
that is not an Error instance. -/
def handleApiError (e : Option String) : String :=
  match e with
  | none => msgUnknownComm
  | some m =>
    if containsSub (lowerL m) (lowerL ("api key not valid"))
        || containsSub (lowerL m) (lowerL ("permission denied")) then msgAuth
    else if containsSub (lowerL m) (lowerL ("rate limit")) then msgRate
    else if containsSub (lowerL m) (lowerL ("500")) || containsSub (lowerL m) (lowerL ("503"))
        || containsSub (lowerL m) (lowerL ("server error"))
        || containsSub (lowerL m) (lowerL ("rpc failed")) then msgServer
    else if containsSub (lowerL m) (lowerL ("400"))
        || containsSub (lowerL m) (lowerL ("invalid")) then msgBadReq
    else msgUnexpected

/-- Behaviour of one remote synthesis call: it throws a caught value, or
returns an optional inline audio payload. -/
def RemoteCall : Type := List Char → Except (Option String) (Option String)

/-- Per-chunk loop of the speech generator: each chunk is re-sanitized and
trimmed, empty chunks and chunks without returned audio contribute nothing,
and a thrown error aborts the loop. -/
def genLoop (remote : RemoteCall) : List (List Char) → List String → Except (Option String) (List String)
  | [], acc => Except.ok acc
  | ch :: rest, acc =>
    if trimL (sanitizeText ch) = [] then genLoop remote rest acc
    else
      match remote (trimL (sanitizeText ch)) with
      | Except.error e => Except.error e
      | Except.ok none => genLoop remote rest acc
      | Except.ok (some p) => genLoop remote rest (acc ++ [p])

/-- Truthiness test of the host language applied to the optional credential:
an absent key and an empty key both fail the precondition. -/
def keyMissing : Option String → Bool
  | none => true
  | some s => s == ""

/-- The speech generator: checks the credential, chunks the text, runs the
per-chunk loop, and maps any thrown value through the error classifier. -/
def generateSpeech (apiKey : Option String) (remote : RemoteCall) (text : List Char) :
    Except String (List String) :=
  if keyMissing apiKey then
    Except.error (handleApiError (some ("API_KEY environment variable not set")))
  else
    match genLoop remote (chunkText text) [] with
    | Except.ok l => Except.ok l
    | Except.error e => Except.error (handleApiError e)

/-- State of the speak hook: the decoded buffer queue, the active source node,
the stopping flag, the playing and loading flags, the exposed error message,
together with the ghost trace of started buffers and the count of invocations
of the end-of-playback callback. -/
structure HookState (B : Type) where
  queue : List B
  active : Option B
  stopping : Bool
  isPlaying : Bool
  started : List B
  onEndCount : Nat
  error : Option String
  isLoading : Bool

/-- The idle state before any speak call. -/
def initState (B : Type) : HookState B :=
  ⟨[], none, false, false, [], 0, none, false⟩

/-- The playNextInQueue callback: under the stopping flag it clears the queue
and fires the end callback; otherwise it starts the next queued buffer, or
fires the end callback when the queue is exhausted. -/
def playNextInQueue {B : Type} (s : HookState B) : HookState B :=
  if s.stopping then
    { s with queue := [], active := none, isPlaying := false, onEndCount := s.onEndCount + 1 }
  else
    match s.queue with
    | b :: rest => { s with queue := rest, active := some b, started := s.started ++ [b] }
    | [] => { s with active := none, isPlaying := false, onEndCount := s.onEndCount + 1 }

/-- The onended event of the active source node: it clears the active node and
re-enters playNextInQueue; without an active node nothing happens. -/
def finishActive {B : Type} (s : HookState B) : HookState B :=
  match s.active with
  | some _ => playNextInQueue { s with active := none }
  | none => s

/-- The stop operation: sets the stopping flag; with an active node it only
requests its halt, whose onended event performs the cleanup; without an active
node it synchronously clears the queue and reports not playing. -/
def stopOp {B : Type} (s : HookState B) : HookState B :=
  match s.active with
  | some _ => { s with stopping := true }
  | none => { s with stopping := true, queue := [], isPlaying := false }

/-- Iterated natural-completion events of the playback engine. -/
def runFinish {B : Type} : Nat → HookState B → HookState B
  | 0, s => s
  | n + 1, s => runFinish n (finishActive s)

/-- The synchronous part of one speak call: stop and reset, the empty-input
early return, the error path of speech generation, and the hand-off of the
decoded buffers to the playback engine; the generation and decoding stages are
summarized by their outcome, an error message or the decoded buffer list. -/
def speakStep {B : Type} (s : HookState B) (text : List Char) (gen : Except String (List B)) :
    HookState B :=
  let s1 := { stopOp s with stopping := false, isLoading := true, error := none }
  if trimL text = [] then
    { s1 with onEndCount := s1.onEndCount + 1, isLoading := false }
  else
    match gen with
    | Except.error msg =>
      { s1 with error := some msg, isPlaying := false, queue := [],
                onEndCount := s1.onEndCount + 1, isLoading := false }
    | Except.ok [] => { s1 with queue := [], onEndCount := s1.onEndCount + 1, isLoading := false }
    | Except.ok (b :: rest) =>
      { playNextInQueue { s1 with queue := b :: rest, isPlaying := true } with isLoading := false }

/-- The decoded buffers of a generation outcome, empty on the error path. -/
def genBufs {B : Type} : Except String (List B) → List B
  | Except.ok l => l
  | Except.error _ => []

theorem sentences_nil : sentences [] = [] := by
  simp [sentences]

theorem sentences_cons_term (c : Char) (rest : List Char) (h : isTerm c = true) :
    sentences (c :: rest) = sentences rest := by
  rw [sentences]
  simp [h]

theorem sentences_cons_nonterm (c : Char) (rest : List Char) (h : isTerm c = false) :
    sentences (c :: rest) =
      (c :: (rest.takeWhile (fun x => !isTerm x)
          ++ (rest.dropWhile (fun x => !isTerm x)).takeWhile (fun x => isTerm x || jsWs x)))
        :: sentences
          ((rest.dropWhile (fun x => !isTerm x)).dropWhile (fun x => isTerm x || jsWs x)) := by
  rw [sentences]
  simp [h]

theorem sentences_all_term (l : List Char) (h : ∀ x ∈ l, isTerm x = true) :
    sentences l = [] := by
  induction l with
  | nil => exact sentences_nil
  | cons c rest ih =>
    rw [sentences_cons_term c rest (h c (List.mem_cons_self c rest))]
    exact ih (fun x hx => h x (List.mem_cons_of_mem c hx))

theorem sentences_no_term (c : Char) (rest : List Char)
    (h : ∀ x ∈ c :: rest, isTerm x = false) :
    sentences (c :: rest) = [c :: rest] := by
  rw [sentences_cons_nonterm c rest (h c (List.mem_cons_self c rest))]
  have htw : rest.takeWhile (fun x => !isTerm x) = rest :=
    List.takeWhile_eq_self_iff.mpr
      (fun x hx => by simp [h x (List.mem_cons_of_mem c hx)])
  have hdw : rest.dropWhile (fun x => !isTerm x) = [] :=
    List.dropWhile_eq_nil_iff.mpr
      (fun x hx => by simp [h x (List.mem_cons_of_mem c hx)])
  rw [htw, hdw]
  simp [sentences_nil]

theorem dropWhile_head_false {p : Char → Bool} : ∀ (l : List Char) (x : Char) (xs : List Char),
    l.dropWhile p = x :: xs → p x = false := by
  intro l
  induction l with
  | nil => intro x xs h; simp at h
  | cons a t ih =>
    intro x xs h
    rw [List.dropWhile_cons] at h
    by_cases ha : p a = true
    · exact ih x xs (by simpa [ha] using h)
    · simp [ha] at h
      rcases h with ⟨h1, _⟩
      rw [← h1]
      simpa using ha

theorem joinL_sentences_aux : ∀ (n : Nat) (l : List Char), l.length ≤ n →
    joinL (sentences l) = l.dropWhile isTerm := by
  intro n
  induction n with
  | zero =>
    intro l h
    have hnil : l = [] := List.length_eq_zero.mp (Nat.le_zero.mp h)
    subst hnil
    simp [sentences_nil, joinL]
  | succ n ih =>
    intro l h
    cases l with
    | nil => simp [sentences_nil, joinL]
    | cons c rest =>
      have hlen : rest.length ≤ n := by simp at h; omega
      by_cases hc : isTerm c = true
      · rw [sentences_cons_term c rest hc, List.dropWhile_cons_of_pos hc]
        exact ih rest hlen
      · have hc2 : isTerm c = false := by simpa using hc
        rw [sentences_cons_nonterm c rest hc2,
          List.dropWhile_cons_of_neg (by simp [hc2])]
        simp only [joinL]
        have hrec : joinL (sentences
            ((rest.dropWhile (fun x => !isTerm x)).dropWhile (fun x => isTerm x || jsWs x))) =
            ((rest.dropWhile (fun x => !isTerm x)).dropWhile
              (fun x => isTerm x || jsWs x)).dropWhile isTerm := by
          refine ih _ ?_
          have h1 := (List.dropWhile_sublist (l := rest.dropWhile (fun x => !isTerm x))
            (fun x => isTerm x || jsWs x)).length_le
          have h2 := (List.dropWhile_sublist (l := rest) (fun x => !isTerm x)).length_le
          omega
        rw [hrec]
        have hstop : ((rest.dropWhile (fun x => !isTerm x)).dropWhile
            (fun x => isTerm x || jsWs x)).dropWhile isTerm =
            (rest.dropWhile (fun x => !isTerm x)).dropWhile (fun x => isTerm x || jsWs x) := by
          cases hd : (rest.dropWhile (fun x => !isTerm x)).dropWhile
              (fun x => isTerm x || jsWs x) with
          | nil => simp
          | cons x xs =>
            have hx := dropWhile_head_false _ x xs hd
            have hx2 : isTerm x = false := by
              rcases Bool.or_eq_false_iff.mp hx with ⟨h1, _⟩
              exact h1
            rw [List.dropWhile_cons_of_neg (by simp [hx2])]
        rw [hstop]
        have hsplit : (rest.dropWhile (fun x => !isTerm x)).takeWhile
              (fun x => isTerm x || jsWs x) ++
            (rest.dropWhile (fun x => !isTerm x)).dropWhile (fun x => isTerm x || jsWs x) =
            rest.dropWhile (fun x => !isTerm x) :=
          List.takeWhile_append_dropWhile _ _
        have hsplit2 : rest.takeWhile (fun x => !isTerm x) ++
            rest.dropWhile (fun x => !isTerm x) = rest :=
          List.takeWhile_append_dropWhile _ _
        rw [List.cons_append, List.append_assoc, hsplit, hsplit2]

theorem joinL_sentences (l : List Char) : joinL (sentences l) = l.dropWhile isTerm :=
  joinL_sentences_aux l.length l (Nat.le_refl _)

theorem joinL_append (a b : List (List Char)) : joinL (a ++ b) = joinL a ++ joinL b := by
  induction a with
  | nil => rfl
  | cons x xs ih => simp [joinL, ih]

theorem filter_nws_dropWhile (l : List Char) :
    List.filter nws (l.dropWhile jsWs) = List.filter nws l := by
  induction l with
  | nil => rfl
  | cons a t ih =>
    by_cases ha : jsWs a = true
    · rw [List.dropWhile_cons_of_pos ha, ih, List.filter_cons_of_neg (by simp [nws, ha])]
    · rw [List.dropWhile_cons_of_neg (by simp [ha])]

theorem filter_nws_trimL (l : List Char) : List.filter nws (trimL l) = List.filter nws l := by
  unfold trimL
  rw [List.filter_reverse, filter_nws_dropWhile, List.filter_reverse, List.reverse_reverse,
    filter_nws_dropWhile]

theorem trimL_nil : trimL [] = [] := rfl

theorem trimL_replicate (n : Nat) (x : Char) (h : jsWs x = false) :
    trimL (List.replicate n x) = List.replicate n x := by
  unfold trimL
  rw [List.dropWhile_replicate, if_neg (by simp [h]), List.reverse_replicate,
    List.dropWhile_replicate, if_neg (by simp [h]), List.reverse_replicate]

theorem trimL_sandwich (a b : Char) (mid : List Char) (ha : jsWs a = false)
    (hb : jsWs b = false) :
    trimL (a :: (mid ++ [b])) = a :: (mid ++ [b]) := by
  unfold trimL
  rw [List.dropWhile_cons_of_neg (by simp [ha])]
  have h2 : (a :: (mid ++ [b])).reverse = b :: (mid.reverse ++ [a]) := by simp
  rw [h2, List.dropWhile_cons_of_neg (by simp [hb])]
  simp

theorem forceSplit_nil : forceSplit [] = [] := by
  rw [forceSplit]
  simp

theorem forceSplit_cons (l : List Char) (h : l ≠ []) :
    forceSplit l = l.take MAX_TEXT_LENGTH :: forceSplit (l.drop MAX_TEXT_LENGTH) := by
  rw [forceSplit]
  simp [h]

theorem forceSplit_ne_nil (l : List Char) (h : l ≠ []) : forceSplit l ≠ [] := by
  rw [forceSplit_cons l h]
  simp

theorem joinL_forceSplit_aux : ∀ (n : Nat) (l : List Char), l.length ≤ n →
    joinL (forceSplit l) = l := by
  intro n
  induction n with
  | zero =>
    intro l h
    have hnil : l = [] := List.length_eq_zero.mp (Nat.le_zero.mp h)
    subst hnil
    rw [forceSplit_nil]
    rfl
  | succ n ih =>
    intro l h
    by_cases hl : l = []
    · subst hl; rw [forceSplit_nil]; rfl
    · rw [forceSplit_cons l hl]
      have hpos : 0 < l.length := List.length_pos.mpr hl
      have hrec : joinL (forceSplit (l.drop MAX_TEXT_LENGTH)) = l.drop MAX_TEXT_LENGTH := by
        refine ih _ ?_
        simp only [List.length_drop, MAX_TEXT_LENGTH]
        omega
      simp only [joinL, hrec, List.take_append_drop]

theorem joinL_forceSplit (l : List Char) : joinL (forceSplit l) = l :=
  joinL_forceSplit_aux l.length l (Nat.le_refl _)

theorem forceSplit_all_le_aux : ∀ (n : Nat) (l : List Char), l.length ≤ n →
    (forceSplit l).all (fun c => decide (c.length ≤ MAX_TEXT_LENGTH)) = true := by
  intro n
  induction n with
  | zero =>
    intro l h
    have hnil : l = [] := List.length_eq_zero.mp (Nat.le_zero.mp h)
    subst hnil
    rw [forceSplit_nil]
    rfl
  | succ n ih =>
    intro l h
    by_cases hl : l = []
    · subst hl; rw [forceSplit_nil]; rfl
    · rw [forceSplit_cons l hl]
      have hpos : 0 < l.length := List.length_pos.mpr hl
      have hrec := ih (l.drop MAX_TEXT_LENGTH)
        (by simp only [List.length_drop, MAX_TEXT_LENGTH]; omega)
      simp only [List.all_cons, hrec, Bool.and_true]
      simp [List.length_take]

theorem forceSplit_dropLast_aux : ∀ (n : Nat) (l : List Char), l.length ≤ n →
    (forceSplit l).dropLast.all (fun c => c.length == MAX_TEXT_LENGTH) = true := by
  intro n
  induction n with
  | zero =>
    intro l h
    have hnil : l = [] := List.length_eq_zero.mp (Nat.le_zero.mp h)
    subst hnil
    rw [forceSplit_nil]
    rfl
  | succ n ih =>
    intro l h
    by_cases hl : l = []
    · subst hl; rw [forceSplit_nil]; rfl
    · rw [forceSplit_cons l hl]
      by_cases hd : l.drop MAX_TEXT_LENGTH = []
      · rw [hd, forceSplit_nil]
        rfl
      · have hlen : MAX_TEXT_LENGTH < l.length := by
          by_contra hc
          exact hd (List.drop_of_length_le (by omega))
        have hne := forceSplit_ne_nil _ hd
        cases hfs : forceSplit (l.drop MAX_TEXT_LENGTH) with
        | nil => exact absurd hfs hne
        | cons r rs =>
          rw [List.dropLast_cons₂]
          have hrec := ih (l.drop MAX_TEXT_LENGTH)
            (by simp only [List.length_drop, MAX_TEXT_LENGTH]
                have := List.length_pos.mpr hl
                omega)
          rw [hfs] at hrec
          simp only [List.all_cons, hrec, Bool.and_true]
          have htk : (l.take MAX_TEXT_LENGTH).length = MAX_TEXT_LENGTH := by
            simp [List.length_take]
            omega
          simp [htk]

theorem filter_nws_flush (cur : List Char) :
    List.filter nws (joinL (if trimL cur = [] then [] else [trimL cur])) =
      List.filter nws cur := by
  by_cases h : trimL cur = []
  · rw [if_pos h, ← filter_nws_trimL cur, h]
    rfl
  · rw [if_neg h]
    show List.filter nws (trimL cur ++ []) = _
    rw [List.append_nil, filter_nws_trimL]

theorem chunkLoop_content : ∀ (ss : List (List Char)) (cur : List Char),
    List.filter nws (joinL (chunkLoop ss cur)) =
      List.filter nws cur ++ List.filter nws (joinL ss) := by
  intro ss
  induction ss with
  | nil =>
    intro cur
    show List.filter nws (joinL (if trimL cur = [] then [] else [trimL cur])) = _
    rw [filter_nws_flush]
    simp [joinL]
  | cons s ss ih =>
    intro cur
    by_cases h1 : trimL s = []
    · show List.filter nws (joinL (if trimL s = [] then chunkLoop ss cur else _)) = _
      rw [if_pos h1, ih]
      have hs : List.filter nws s = [] := by rw [← filter_nws_trimL s, h1]; rfl
      simp [joinL, List.filter_append, hs]
    · by_cases h2 : MAX_TEXT_LENGTH < (trimL s).length
      · have hstep : chunkLoop (s :: ss) cur =
            (if trimL cur = [] then [] else [trimL cur]) ++ forceSplit (trimL s) ++
              chunkLoop ss [] := by
          show (if trimL s = [] then _ else if MAX_TEXT_LENGTH < (trimL s).length then _
            else _) = _
          rw [if_neg h1, if_pos h2]
        rw [hstep, joinL_append, joinL_append, List.filter_append, List.filter_append,
          filter_nws_flush, joinL_forceSplit, ih, filter_nws_trimL]
        simp [joinL, List.filter_append, List.append_assoc]
      · by_cases h3 : MAX_TEXT_LENGTH < cur.length + (trimL s).length + 1
        · have hstep : chunkLoop (s :: ss) cur =
              (if trimL cur = [] then [] else [trimL cur]) ++
                chunkLoop ss (trimL s ++ [' ']) := by
            show (if trimL s = [] then _ else if MAX_TEXT_LENGTH < (trimL s).length then _
              else if MAX_TEXT_LENGTH < cur.length + (trimL s).length + 1 then _ else _) = _
            rw [if_neg h1, if_neg h2, if_pos h3]
          rw [hstep, joinL_append, List.filter_append, filter_nws_flush, ih,
            List.filter_append, filter_nws_trimL]
          have hsp : List.filter nws ([' '] : List Char) = [] := by rfl
          simp [joinL, List.filter_append, hsp]
        · have hstep : chunkLoop (s :: ss) cur = chunkLoop ss (cur ++ (trimL s ++ [' '])) := by
            show (if trimL s = [] then _ else if MAX_TEXT_LENGTH < (trimL s).length then _
              else if MAX_TEXT_LENGTH < cur.length + (trimL s).length + 1 then _ else _) = _
            rw [if_neg h1, if_neg h2, if_neg h3]
          rw [hstep, ih, List.filter_append, List.filter_append, filter_nws_trimL]
          have hsp : List.filter nws ([' '] : List Char) = [] := by rfl
          simp [joinL, List.filter_append, hsp]

theorem replicate_ne_nil_own (n : Nat) (x : Char) (h : n ≠ 0) : List.replicate n x ≠ [] := by
  intro hc
  have hlen := congrArg List.length hc
  simp only [List.length_replicate, List.length_nil] at hlen
  exact h hlen

theorem chunkLoop_single_big (s : List Char) (h1 : trimL s ≠ [])
    (h2 : MAX_TEXT_LENGTH < (trimL s).length) :
    chunkLoop [s] [] = forceSplit (trimL s) := by
  show (if trimL s = [] then chunkLoop [] [] else
    if MAX_TEXT_LENGTH < (trimL s).length then
      (if trimL [] = [] then [] else [trimL []]) ++ forceSplit (trimL s) ++ chunkLoop [] []
    else _) = _
  rw [if_neg h1, if_pos h2, if_pos trimL_nil]
  show [] ++ forceSplit (trimL s) ++ (if trimL [] = [] then [] else [trimL []]) = _
  rw [if_pos trimL_nil]
  simp

theorem chunkText_big_single (l : List Char) (ht : trimL l = l) (hne : l ≠ [])
    (hlen : MAX_TEXT_LENGTH < l.length) (hsent : sentences l = [l]) :
    chunkText l = forceSplit l := by
  unfold chunkText
  rw [ht, if_neg hne, if_neg (by omega), hsent,
    chunkLoop_single_big l (by rw [ht]; exact hne) (by rw [ht]; omega), ht]

theorem runFinish_fixed {B : Type} (n : Nat) (s : HookState B) (h : s.active = none) :
    runFinish n s = s := by
  induction n with
  | zero => rfl
  | succ n ih => simp [runFinish, finishActive, h, ih]

theorem runFinish_mid {B : Type} (k : Nat) :
    ∀ (rest : List B) (cur : B) (pre : List B) (c : Nat) (e : Option String) (ld : Bool),
    runFinish k (⟨rest, some cur, false, true, pre, c, e, ld⟩ : HookState B) =
      if k ≤ rest.length then
        ⟨rest.drop k, ((cur :: rest).drop k).head?, false, true, pre ++ rest.take k, c, e, ld⟩
      else ⟨[], none, false, false, pre ++ rest, c + 1, e, ld⟩ := by
  induction k with
  | zero =>
    intro rest cur pre c e ld
    simp [runFinish]
  | succ k ih =>
    intro rest cur pre c e ld
    simp only [runFinish]
    cases rest with
    | nil =>
      have hfa : finishActive (⟨[], some cur, false, true, pre, c, e, ld⟩ : HookState B) =
          ⟨[], none, false, false, pre, c + 1, e, ld⟩ := rfl
      rw [hfa, runFinish_fixed _ _ rfl]
      simp
    | cons r rest =>
      have hfa : finishActive (⟨r :: rest, some cur, false, true, pre, c, e, ld⟩ : HookState B) =
          ⟨rest, some r, false, true, pre ++ [r], c, e, ld⟩ := rfl
      rw [hfa, ih]
      by_cases hk : k ≤ rest.length
      · have hk1 : k + 1 ≤ (r :: rest).length := by simp; omega
        simp [hk, hk1, List.drop_succ_cons, List.take_succ_cons]
      · have hk1 : ¬ (k + 1 ≤ (r :: rest).length) := by simp; omega
        simp [hk, hk1]

theorem head_toList_append_tail {B : Type} (l : List B) : l.head?.toList ++ l.tail = l := by
  cases l <;> simp

/-- C8: with a non-empty decoded queue handed to the engine and no stop call,
buffers start strictly in original order, none replayed or skipped, the end
callback fires exactly once at exhaustion, and at every step the active node
followed by the queue is exactly the remaining audio in order. -/
theorem playback_in_order {B : Type} (bs : List B) (k : Nat) :
    runFinish k (playNextInQueue (⟨bs, none, false, true, [], 0, none, false⟩ : HookState B)) =
      ⟨bs.drop (k + 1), (bs.drop k).head?, false,
        (if bs.length ≤ k then false else true), bs.take (k + 1),
        (if bs.length ≤ k then 1 else 0), none, false⟩ ∧
    (bs.drop k).head?.toList ++ bs.drop (k + 1) = bs.drop k := by
  constructor
  · cases bs with
    | nil =>
      have h1 : playNextInQueue (⟨([] : List B), none, false, true, [], 0, none, false⟩ :
          HookState B) = ⟨[], none, false, false, [], 1, none, false⟩ := rfl
      have h2 := runFinish_fixed (B := B) k ⟨[], none, false, false, [], 1, none, false⟩ rfl
      rw [h1, h2]
      simp
    | cons b rest =>
      have h1 : playNextInQueue (⟨b :: rest, none, false, true, [], 0, none, false⟩ :
          HookState B) = ⟨rest, some b, false, true, [b], 0, none, false⟩ := rfl
      rw [h1, runFinish_mid]
      by_cases hk : k ≤ rest.length
      · have hlen : ¬ ((b :: rest).length ≤ k) := by simp; omega
        rw [if_pos hk, if_neg hlen, if_neg hlen]
        simp
      · have hlen : (b :: rest).length ≤ k := by simp; omega
        rw [if_neg hk, if_pos hlen, if_pos hlen]
        have hdrop : (b :: rest).drop k = [] := List.drop_of_length_le hlen
        have hdrop2 : rest.drop k = [] := List.drop_of_length_le (by simp at hlen; omega)
        have htake : (b :: rest).take (k + 1) = b :: rest :=
          List.take_of_length_le (by simp at hlen ⊢; omega)
        simp [hdrop, hdrop2, htake]
  · have h3 := head_toList_append_tail (bs.drop k)
    rw [List.tail_drop] at h3
    exact h3

/-- C9: a stop call while a buffer is active leads, at the halted node's
completion event, to exactly one end-callback invocation with no further
buffer started and the queue cleared, no matter how many further completion
events occur; a stop call with no active node synchronously clears the queue,
reports not playing, changes nothing else, and fires no callback, also from
the idle state before any speak call. -/
theorem stop_cancellation {B : Type} (q q2 : List B) (b : B) (pre pre2 : List B) (c c2 : Nat)
    (e e2 : Option String) (ld ld2 st pl : Bool) (m : Nat) :
    runFinish (m + 1) (stopOp (⟨q, some b, false, true, pre, c, e, ld⟩ : HookState B)) =
      ⟨[], none, true, false, pre, c + 1, e, ld⟩ ∧
    stopOp (⟨q2, none, st, pl, pre2, c2, e2, ld2⟩ : HookState B) =
      ⟨[], none, true, false, pre2, c2, e2, ld2⟩ ∧
    stopOp (initState B) = ⟨[], none, true, false, [], 0, none, false⟩ := by
  refine ⟨?_, rfl, rfl⟩
  have h1 : stopOp (⟨q, some b, false, true, pre, c, e, ld⟩ : HookState B) =
      ⟨q, some b, true, true, pre, c, e, ld⟩ := rfl
  have h2 : finishActive (⟨q, some b, true, true, pre, c, e, ld⟩ : HookState B) =
      ⟨[], none, true, false, pre, c + 1, e, ld⟩ := rfl
  rw [h1]
  show runFinish m (finishActive ⟨q, some b, true, true, pre, c, e, ld⟩) = _
  rw [h2]
  exact runFinish_fixed _ _ rfl

/-- C10: a stop call with an active node does not clear the queue
synchronously: it only sets the stopping flag, leaving queue, active node,
playing flag and callback count unchanged; only the subsequent completion
event of the halted node clears the queue, resets the playing flag and fires
the end callback. -/
theorem stop_deferred_cleanup {B : Type} (q : List B) (b : B) (pre : List B) (c : Nat)
    (e : Option String) (ld : Bool) :
    stopOp (⟨q, some b, false, true, pre, c, e, ld⟩ : HookState B) =
      ⟨q, some b, true, true, pre, c, e, ld⟩ ∧
    finishActive (stopOp (⟨q, some b, false, true, pre, c, e, ld⟩ : HookState B)) =
      ⟨[], none, true, false, pre, c + 1, e, ld⟩ := ⟨rfl, rfl⟩

/-- C1: for every speak call from the idle state, whatever the input text and
whatever the outcome of the synthesis and decoding stage, the end callback is
invoked exactly once after playback has run to natural exhaustion: once for
empty input, once for a successful run, and once on the error path. -/
theorem speak_onEnd_exactly_once {B : Type} (text : List Char) (gen : Except String (List B))
    (m : Nat) :
    (runFinish ((genBufs gen).length + m) (speakStep (initState B) text gen)).onEndCount = 1 := by
  by_cases ht : trimL text = []
  · have h1 : speakStep (initState B) text gen = ⟨[], none, false, false, [], 1, none, false⟩ := by
      simp [speakStep, stopOp, initState, ht]
    rw [h1, runFinish_fixed _ _ rfl]
  · cases gen with
    | error msg =>
      have h1 : speakStep (initState B) text (Except.error msg) =
          ⟨[], none, false, false, [], 1, some msg, false⟩ := by
        simp [speakStep, stopOp, initState, ht]
      rw [h1, runFinish_fixed _ _ rfl]
    | ok bufs =>
      cases bufs with
      | nil =>
        have h1 : speakStep (initState B) text (Except.ok ([] : List B)) =
            ⟨[], none, false, false, [], 1, none, false⟩ := by
          simp [speakStep, stopOp, initState, ht]
        rw [h1, runFinish_fixed _ _ rfl]
      | cons b rest =>
        have h1 : speakStep (initState B) text (Except.ok (b :: rest)) =
            ⟨rest, some b, false, true, [b], 0, none, false⟩ := by
          simp [speakStep, stopOp, initState, playNextInQueue, ht]
        have h2 : (genBufs (Except.ok (b :: rest)) : List B).length = rest.length + 1 := by
          simp [genBufs]
        rw [h1, h2, runFinish_mid]
        have hgt : ¬ (rest.length + 1 + m ≤ rest.length) := by omega
        simp [hgt]

/-- C4 (amended): concatenating the chunks and removing whitespace
reconstructs the non-whitespace content of the input in its original order,
except that when the trimmed text exceeds the maximum chunk length the
leading run of sentence-terminator characters of the trimmed text is dropped
by the sentence-matching step. -/
theorem chunk_content_reconstruction (l : List Char) :
    List.filter nws (joinL (chunkText l)) =
      if (trimL l).length ≤ MAX_TEXT_LENGTH then List.filter nws l
      else List.filter nws ((trimL l).dropWhile isTerm) := by
  by_cases h0 : trimL l = []
  · have hc : chunkText l = [] := by unfold chunkText; rw [if_pos h0]
    have hlen : (trimL l).length ≤ MAX_TEXT_LENGTH := by rw [h0]; simp
    rw [hc, if_pos hlen, ← filter_nws_trimL l, h0]
    rfl
  · by_cases h1 : (trimL l).length ≤ MAX_TEXT_LENGTH
    · have hc : chunkText l = [trimL l] := by unfold chunkText; rw [if_neg h0, if_pos h1]
      rw [hc, if_pos h1]
      show List.filter nws (trimL l ++ []) = _
      rw [List.append_nil, filter_nws_trimL]
    · have hc : chunkText l = chunkLoop (sentences (trimL l)) [] := by
        unfold chunkText
        rw [if_neg h0, if_neg h1]
      rw [hc, if_neg h1, chunkLoop_content, joinL_sentences]
      rfl

/-- C4 counterexample: a text of 4501 periods has 4501 non-whitespace
characters, yet the chunker returns no chunks at all, so the concatenation of
the chunks does not reconstruct the non-whitespace content of the input. -/
theorem chunk_content_cex :
    chunkText (List.replicate 4501 '.') = [] ∧
    List.filter nws (List.replicate 4501 '.') = List.replicate 4501 '.' ∧
    (List.replicate 4501 '.' : List Char).isEmpty = false := by
  refine ⟨?_, ?_, rfl⟩
  · have ht : trimL (List.replicate 4501 '.') = List.replicate 4501 '.' :=
      trimL_replicate 4501 '.' (by decide)
    have hne : trimL (List.replicate 4501 '.') ≠ [] := by
      rw [ht]
      exact replicate_ne_nil_own 4501 '.' (by norm_num)
    have hlen : ¬ ((trimL (List.replicate 4501 '.')).length ≤ MAX_TEXT_LENGTH) := by
      rw [ht]
      simp only [List.length_replicate, MAX_TEXT_LENGTH]
      omega
    have hsent : sentences (trimL (List.replicate 4501 '.')) = [] := by
      rw [ht]
      refine sentences_all_term _ ?_
      intro x hx
      rw [(List.mem_replicate.mp hx).2]
      decide
    unfold chunkText
    rw [if_neg hne, if_neg hlen, hsent]
    show (if trimL [] = [] then [] else [trimL []]) = []
    rw [if_pos trimL_nil]
  · rw [List.filter_replicate, if_pos (by decide : nws '.' = true)]

/-- C3: when a single sentence unit exceeds the maximum chunk length, the
loop first flushes the current buffer and then emits the unit as consecutive
fixed-size slices: joined, the slices give back the unit; every slice except
the last has exactly the maximum length; every slice is within the maximum;
and a text of 4501 identical letters yields exactly the two slices of sizes
4500 and 1. -/
theorem forceSplit_fixed_slices :
    (∀ l : List Char, joinL (forceSplit l) = l) ∧
    (∀ l : List Char,
      (forceSplit l).dropLast.all (fun c => c.length == MAX_TEXT_LENGTH) = true) ∧
    (∀ l : List Char,
      (forceSplit l).all (fun c => decide (c.length ≤ MAX_TEXT_LENGTH)) = true) ∧
    (∀ (s : List Char) (ss : List (List Char)) (cur : List Char), trimL s ≠ [] →
      MAX_TEXT_LENGTH < (trimL s).length →
      chunkLoop (s :: ss) cur =
        (if trimL cur = [] then [] else [trimL cur]) ++ forceSplit (trimL s) ++
          chunkLoop ss []) ∧
    chunkText (List.replicate 4501 'a') = [List.replicate 4500 'a', ['a']] := by
  refine ⟨joinL_forceSplit, fun l => forceSplit_dropLast_aux l.length l (Nat.le_refl _),
    fun l => forceSplit_all_le_aux l.length l (Nat.le_refl _), ?_, ?_⟩
  · intro s ss cur h1 h2
    show (if trimL s = [] then chunkLoop ss cur else
      if MAX_TEXT_LENGTH < (trimL s).length then
        (if trimL cur = [] then [] else [trimL cur]) ++ forceSplit (trimL s) ++
          chunkLoop ss []
      else _) = _
    rw [if_neg h1, if_pos h2]
  · have ht : trimL (List.replicate 4501 'a') = List.replicate 4501 'a' :=
      trimL_replicate 4501 'a' (by decide)
    have hne : (List.replicate 4501 'a' : List Char) ≠ [] :=
      replicate_ne_nil_own 4501 'a' (by norm_num)
    have hlen : MAX_TEXT_LENGTH < (List.replicate 4501 'a' : List Char).length := by
      simp only [List.length_replicate, MAX_TEXT_LENGTH]
      omega
    have hsent : sentences (List.replicate 4501 'a') = [List.replicate 4501 'a'] := by
      rw [show (4501 : Nat) = 4500 + 1 from rfl, List.replicate_succ]
      refine sentences_no_term 'a' (List.replicate 4500 'a') ?_
      intro x hx
      rcases List.mem_cons.mp hx with h | h
      · rw [h]; decide
      · rw [(List.mem_replicate.mp h).2]; decide
    rw [chunkText_big_single _ ht hne hlen hsent]
    have hfs1 : forceSplit (['a'] : List Char) = [['a']] := by
      rw [forceSplit_cons _ (List.cons_ne_nil 'a' []),
        List.take_of_length_le (by norm_num [MAX_TEXT_LENGTH]),
        List.drop_of_length_le (by norm_num [MAX_TEXT_LENGTH]), forceSplit_nil]
    rw [forceSplit_cons _ hne, List.take_replicate, List.drop_replicate]
    simp only [MAX_TEXT_LENGTH]
    norm_num
    exact hfs1

/-- C2 evaluation: on the 9001-character text of a letter, 8999 spaces and a
letter, the chunker emits the chunk of 4500 spaces, a non-empty chunk that is
whitespace-only, contradicting the stated guarantee. -/
theorem chunkText_whitespace_chunk :
    chunkText ('a' :: (List.replicate 8999 ' ' ++ ['b'])) =
      ['a' :: List.replicate 4499 ' ', List.replicate 4500 ' ', ['b']] ∧
    List.replicate 4500 ' ' ∈ chunkText ('a' :: (List.replicate 8999 ' ' ++ ['b'])) ∧
    (List.replicate 4500 ' ' : List Char).isEmpty = false ∧
    trimL (List.replicate 4500 ' ') = [] ∧
    (List.replicate 4500 ' ').all jsWs = true := by
  have ht : trimL ('a' :: (List.replicate 8999 ' ' ++ ['b'])) =
      'a' :: (List.replicate 8999 ' ' ++ ['b']) :=
    trimL_sandwich 'a' 'b' (List.replicate 8999 ' ') (by decide) (by decide)
  have hne : ('a' :: (List.replicate 8999 ' ' ++ ['b']) : List Char) ≠ [] :=
    List.cons_ne_nil _ _
  have hlen : ('a' :: (List.replicate 8999 ' ' ++ ['b']) : List Char).length = 9001 := by
    simp only [List.length_cons, List.length_append, List.length_replicate]
    norm_num
  have hsent : sentences ('a' :: (List.replicate 8999 ' ' ++ ['b'])) =
      ['a' :: (List.replicate 8999 ' ' ++ ['b'])] := by
    refine sentences_no_term 'a' (List.replicate 8999 ' ' ++ ['b']) ?_
    intro x hx
    rcases List.mem_cons.mp hx with h | h
    · rw [h]; decide
    · rcases List.mem_append.mp h with h2 | h2
      · rw [(List.mem_replicate.mp h2).2]; decide
      · rw [List.mem_singleton.mp h2]; decide
  have hmain : chunkText ('a' :: (List.replicate 8999 ' ' ++ ['b'])) =
      ['a' :: List.replicate 4499 ' ', List.replicate 4500 ' ', ['b']] := by
    rw [chunkText_big_single _ ht hne (by rw [hlen]; norm_num [MAX_TEXT_LENGTH]) hsent]
    have e1 : ('a' :: (List.replicate 8999 ' ' ++ ['b'])).take MAX_TEXT_LENGTH =
        'a' :: List.replicate 4499 ' ' := by
      rw [show MAX_TEXT_LENGTH = 4499 + 1 from rfl, List.take_succ_cons,
        List.take_append_eq_append_take, List.take_replicate]
      norm_num
    have e2 : ('a' :: (List.replicate 8999 ' ' ++ ['b'])).drop MAX_TEXT_LENGTH =
        List.replicate 4500 ' ' ++ ['b'] := by
      rw [show MAX_TEXT_LENGTH = 4499 + 1 from rfl, List.drop_succ_cons,
        List.drop_append_eq_append_drop, List.drop_replicate]
      norm_num
    have e3 : (List.replicate 4500 ' ' ++ ['b']).take MAX_TEXT_LENGTH =
        List.replicate 4500 ' ' := by
      rw [List.take_append_eq_append_take, List.take_replicate]
      norm_num [MAX_TEXT_LENGTH]
    have e4 : (List.replicate 4500 ' ' ++ ['b']).drop MAX_TEXT_LENGTH = ['b'] := by
      rw [List.drop_append_eq_append_drop, List.drop_replicate]
      norm_num [MAX_TEXT_LENGTH]
    have e5 : forceSplit ['b'] = [['b']] := by
      rw [forceSplit_cons _ (List.cons_ne_nil 'b' []),
        List.take_of_length_le (by norm_num [MAX_TEXT_LENGTH]),
        List.drop_of_length_le (by norm_num [MAX_TEXT_LENGTH]), forceSplit_nil]
    have hne2 : (List.replicate 4500 ' ' ++ ['b'] : List Char) ≠ [] := by
      intro hc
      have hl2 := congrArg List.length hc
      simp only [List.length_append, List.length_replicate, List.length_cons,
        List.length_nil] at hl2
      omega
    rw [forceSplit_cons _ hne, e1, e2, forceSplit_cons _ hne2, e3, e4, e5]
  refine ⟨hmain, ?_, rfl, ?_, ?_⟩
  · rw [hmain]
    exact List.mem_cons_of_mem _ (List.mem_cons_self _ _)
  · unfold trimL
    rw [List.dropWhile_replicate, if_pos (by decide)]
    rfl
  · rw [List.all_eq_true]
    intro x hx
    rw [(List.mem_replicate.mp hx).2]
    decide

theorem removedChar_eq_category (c : Char) :
    removedChar c = ((isCc c || isCf c) && !keepChar c) := by
  have h : (removedChar c = true) ↔ (((isCc c || isCf c) && !keepChar c) = true) := by
    simp only [removedChar, isCc, isCf, keepChar, Bool.or_eq_true, Bool.and_eq_true,
      Bool.not_eq_true', decide_eq_true_eq, decide_eq_false_iff_not]
    omega
  cases hb : ((isCc c || isCf c) && !keepChar c) with
  | true => exact h.mpr hb
  | false =>
    cases hr : removedChar c with
    | false => rfl
    | true =>
      rw [hb] at h
      exact absurd (h.mp hr) (by simp)

/-- C5: the sanitizer removes exactly the Control and Format category code
points other than tab, line feed and carriage return: its output is the input
filtered by that category predicate, every other character being preserved in
its original order, and no banned code point survives in the output. -/
theorem sanitize_removes_exactly (l : List Char) :
    sanitizeText l = l.filter (fun c => !((isCc c || isCf c) && !keepChar c)) ∧
    (sanitizeText l).all (fun c => !(isCc c || isCf c) || keepChar c) = true := by
  constructor
  · exact List.filter_congr (fun c _ => by rw [removedChar_eq_category])
  · rw [List.all_eq_true]
    intro c hc
    unfold sanitizeText at hc
    have hmem : (!removedChar c) = true := by simpa using (List.mem_filter.mp hc).2
    rw [removedChar_eq_category] at hmem
    cases h1 : (isCc c || isCf c) <;> cases h2 : keepChar c <;>
      simp [h1, h2] at hmem ⊢

/-- C6: with the credential absent, the speech generator fails at once with
the unknown-category message, independently of the remote service, so no
remote call is attempted; handed that failure, the speak step enters the
error state, clears the queue, stops playing and fires the end callback
exactly once. -/
theorem missing_key_immediate_error :
    (∀ (remote : RemoteCall) (text : List Char),
      generateSpeech none remote text = Except.error msgUnexpected) ∧
    (speakStep (initState Nat) ['h'] (Except.error msgUnexpected)).error =
      some msgUnexpected ∧
    (speakStep (initState Nat) ['h'] (Except.error msgUnexpected)).onEndCount = 1 ∧
    (speakStep (initState Nat) ['h'] (Except.error msgUnexpected)).queue = [] ∧
    (speakStep (initState Nat) ['h'] (Except.error msgUnexpected)).isPlaying = false := by
  refine ⟨?_, rfl, rfl, rfl, rfl⟩
  intro remote text
  have heval : handleApiError (some ("API_KEY environment variable not set")) =
      msgUnexpected := by rfl
  have hk : keyMissing none = true := rfl
  unfold generateSpeech
  rw [if_pos hk, heval]

/-- C7: the error classifier always lands in one of the taxonomy messages,
the six user-facing messages are pairwise distinct, a caught value that is
not an Error instance maps to the default unknown message, each category is
reachable by substring matching, and the speech generator returns either a
complete payload list or a single classified error, never a truncated result. -/
theorem api_error_classification :
    (∀ e : Option String, handleApiError e = msgUnknownComm ∨ handleApiError e = msgAuth ∨
      handleApiError e = msgRate ∨ handleApiError e = msgServer ∨
      handleApiError e = msgBadReq ∨ handleApiError e = msgUnexpected) ∧
    ((msgAuth == msgRate) = false ∧ (msgAuth == msgServer) = false ∧
      (msgAuth == msgBadReq) = false ∧ (msgAuth == msgUnexpected) = false ∧
      (msgAuth == msgUnknownComm) = false ∧ (msgRate == msgServer) = false ∧
      (msgRate == msgBadReq) = false ∧ (msgRate == msgUnexpected) = false ∧
      (msgRate == msgUnknownComm) = false ∧ (msgServer == msgBadReq) = false ∧
      (msgServer == msgUnexpected) = false ∧ (msgServer == msgUnknownComm) = false ∧
      (msgBadReq == msgUnexpected) = false ∧ (msgBadReq == msgUnknownComm) = false ∧
      (msgUnexpected == msgUnknownComm) = false) ∧
    handleApiError none = msgUnknownComm ∧
    handleApiError (some ("API key not valid in this request")) = msgAuth ∧
    handleApiError (some ("Rate limit exceeded")) = msgRate ∧
    handleApiError (some ("503 Service Unavailable")) = msgServer ∧
    handleApiError (some ("400 Bad Request")) = msgBadReq ∧
    handleApiError (some ("boom")) = msgUnexpected ∧
    (∀ (key : Option String) (remote : RemoteCall) (text : List Char),
      (∃ l, generateSpeech key remote text = Except.ok l) ∨
      (∃ e, generateSpeech key remote text = Except.error (handleApiError e))) := by
  refine ⟨?_, by decide, rfl, by rfl, by rfl, by rfl, by rfl, by rfl, ?_⟩
  · intro e
    cases e with
    | none => exact Or.inl rfl
    | some m =>
      simp only [handleApiError]
      split
      · exact Or.inr (Or.inl rfl)
      · split
        · exact Or.inr (Or.inr (Or.inl rfl))
        · split
          · exact Or.inr (Or.inr (Or.inr (Or.inl rfl)))
          · split
            · exact Or.inr (Or.inr (Or.inr (Or.inr (Or.inl rfl))))
            · exact Or.inr (Or.inr (Or.inr (Or.inr (Or.inr rfl))))
  · intro key remote text
    by_cases hk : keyMissing key = true
    · refine Or.inr ⟨some ("API_KEY environment variable not set"), ?_⟩
      unfold generateSpeech
      rw [if_pos hk]
    · unfold generateSpeech
      rw [if_neg hk]
      cases h : genLoop remote (chunkText text) [] with
      | ok l => exact Or.inl ⟨l, rfl⟩
      | error e => exact Or.inr ⟨e, rfl⟩

theorem forceSplit_fixed_slices_witness :
    chunkLoop [List.replicate 4501 'a'] ['x'] =
      (if trimL ['x'] = [] then [] else [trimL ['x']]) ++
        forceSplit (trimL (List.replicate 4501 'a')) ++ chunkLoop [] [] :=
  forceSplit_fixed_slices.2.2.2.1 (List.replicate 4501 'a') [] ['x']
    (by rw [trimL_replicate 4501 'a' (by decide)]
        exact replicate_ne_nil_own 4501 'a' (by norm_num))
    (by rw [trimL_replicate 4501 'a' (by decide)]
        simp only [List.length_replicate, MAX_TEXT_LENGTH]
        omega)
